import Mathlib

/-!
A verification development for the mobile capture front-end: a shallow
embedding of its device/format selection (FormatCatalog), zoom controller,
focus mapper and lot state machine, together with theorems settling the
testable properties stated in the specification.

Conventions of the embedding:
* JavaScript numbers are modelled as rationals; pixel dimensions as naturals.
* Mutable component state becomes explicit state passing; React state setters
  become pure functions from old state to new state.
* Fallible lookups return Option; the capture outcome carries an optional
  error condition next to the resulting lot list.
-/

/-- Lens kinds a camera device may expose in its physicalDevices list. -/
inductive LensKind where
  | ultraWide
  | wide
  | telephoto
deriving DecidableEq

/-- Camera position, front or back. -/
inductive CameraPosition where
  | front
  | back
deriving DecidableEq

/-- One sensor configuration of a device: photo and video resolutions.
Frame-rate and HDR capability fields are not consulted by the operations
verified here and are omitted. -/
structure CameraFormat where
  photoWidth : Nat
  photoHeight : Nat
  videoWidth : Nat
  videoHeight : Nat
deriving DecidableEq

/-- A physical or logical camera device as enumerated by the driver. -/
structure CameraDevice where
  id : String
  position : CameraPosition
  physicalDevices : List LensKind
  formats : List CameraFormat
  minZoom : ℚ
  neutralZoom : ℚ
  maxZoom : ℚ
deriving DecidableEq

/-- Photo pixel count of a format, photoWidth times photoHeight. -/
def fmtPixels (f : CameraFormat) : Nat :=
  f.photoWidth * f.photoHeight

/-- Tie-break score used by bestHighResDevice in CameraScreen: wide lens
is worth 100, a single-lens device 10, ultra-wide and telephoto each -1. -/
def scoreDevice (dev : CameraDevice) : Int :=
  (if dev.physicalDevices.contains LensKind.wide then 100 else 0)
    + (if dev.physicalDevices.length = 1 then 10 else 0)
    + (if dev.physicalDevices.contains LensKind.ultraWide then -1 else 0)
    + (if dev.physicalDevices.contains LensKind.telephoto then -1 else 0)

/-- Inner loop body of bestHighResDevice: fold one format of dev into the
running (bestDevice, bestPixels) pair. A strictly larger photo pixel count
wins outright; an equal pixel count replaces the incumbent only when the
new device scores strictly higher. -/
def bestStep (dev : CameraDevice) (s : Option CameraDevice × Nat)
    (fmt : CameraFormat) : Option CameraDevice × Nat :=
  let pixels := fmtPixels fmt
  if pixels > s.2 then (some dev, pixels)
  else
    match s.1 with
    | some best =>
      if pixels = s.2 ∧ scoreDevice dev > scoreDevice best then (some dev, s.2)
      else s
    | none => s

/-- Outer loop body of bestHighResDevice: non-back devices are skipped. -/
def bestDevStep (s : Option CameraDevice × Nat) (dev : CameraDevice) :
    Option CameraDevice × Nat :=
  if dev.position = CameraPosition.back then dev.formats.foldl (bestStep dev) s
  else s

/-- bestHighResDevice from CameraScreen: scan every enumerated back camera
and every format, returning the device owning the format with the greatest
photo pixel count, with the scoreDevice tie-break on equal pixel counts. -/
def bestHighResDevice (devices : List CameraDevice) : Option CameraDevice :=
  if devices.isEmpty then none
  else (devices.foldl bestDevStep (none, 0)).1

/-- Photo pixel count of an optional format, 0 for none, as the source
reads (best?.photoWidth ?? 0) * (best?.photoHeight ?? 0). -/
def optPhotoPixels (o : Option CameraFormat) : Nat :=
  match o with
  | none => 0
  | some f => fmtPixels f

/-- Reduce step of the photo-path branch of selectedFormat: keep the format
with strictly more photo pixels. -/
def maxPhotoStep (best : Option CameraFormat) (f : CameraFormat) :
    Option CameraFormat :=
  if fmtPixels f > optPhotoPixels best then some f else best

/-- The photo path of selectedFormat in CameraScreen (the branch used when
the video use case is disabled): reduce over the device formats keeping the
one with the most photo pixels, starting from null. -/
def selectMaxPhotoFormat (formats : List CameraFormat) : Option CameraFormat :=
  formats.foldl maxPhotoStep none

/-- Capture modes a lot may be locked to. -/
inductive CaptureMode where
  | single_lot
  | per_item
  | per_photo
deriving DecidableEq

/-- A normalized rectangle with fields x, y, w, h. -/
structure FocusRect where
  x : ℚ
  y : ℚ
  w : ℚ
  h : ℚ
deriving DecidableEq

/-- A captured asset as filed into a lot. displayUri and adjustments are
attached later by post-processing and are not consulted by the lot
operations verified here. -/
structure PhotoFile where
  uri : String
  name : String
  type : String
  width : Option ℚ := none
  height : Option ℚ := none
  megapixels : Option ℚ := none
  focusBox : Option FocusRect := none
deriving DecidableEq

/-- A lot: the MixedLot record of the camera types module. coverIndex is a
JavaScript number and is kept as an integer so that unclamped writes are
representable. -/
structure MixedLot where
  id : String
  mode : Option CaptureMode := none
  files : List PhotoFile
  extraFiles : List PhotoFile
  coverIndex : Int
  videoFile : Option PhotoFile := none
deriving DecidableEq

/-- createNewLot from the camera types module: empty lists, cover index 0,
no mode. The id generator is passed in as the produced id. -/
def createNewLot (id : String) : MixedLot :=
  { id := id, files := [], extraFiles := [], coverIndex := 0 }

/-- The capture-rejection condition surfaced by handleCapture. -/
inductive CaptureError where
  | modeMismatch
deriving DecidableEq

/-- How a single lot absorbs an accepted capture, per the setLots updater
of handleCapture: an extra capture prepends to extraFiles and leaves mode
alone; a main capture sets mode and prepends to files. -/
def fileCaptureIntoLot (lot : MixedLot) (mode : CaptureMode) (isExtra : Bool)
    (photo : PhotoFile) : MixedLot :=
  if isExtra then { lot with extraFiles := photo :: lot.extraFiles }
  else { lot with mode := some mode, files := photo :: lot.files }

/-- The setLots updater run when a capture result arrives in handleCapture:
copy the array, look up the active lot, return the previous array unchanged
when there is no lot at that index, otherwise replace only that entry. -/
def fileCapture (lots : List MixedLot) (activeLotIdx : Nat)
    (mode : CaptureMode) (isExtra : Bool) (photo : PhotoFile) :
    List MixedLot :=
  match lots[activeLotIdx]? with
  | none => lots
  | some lot => lots.set activeLotIdx (fileCaptureIntoLot lot mode isExtra photo)

/-- The per-lot part of the mode-mismatch guard of handleCapture: the lot
already has a mode, that mode differs from the requested one, and the
capture is not an extra. -/
def lotCaptureRejected (lot : MixedLot) (mode : CaptureMode)
    (isExtra : Bool) : Bool :=
  match lot.mode with
  | some m => decide (m ≠ mode) && !isExtra
  | none => false

/-- The mode-mismatch guard at the top of handleCapture: rejected exactly
when the active lot exists and its mode conflicts with the request. -/
def modeMismatchRejected (lots : List MixedLot) (activeLotIdx : Nat)
    (mode : CaptureMode) (isExtra : Bool) : Bool :=
  match lots[activeLotIdx]? with
  | some lot => lotCaptureRejected lot mode isExtra
  | none => false

/-- handleCapture as a state transformer on the lot list: either reject with
ModeMismatch (leaving the lots untouched) or file the captured photo into
the active lot. The in-flight capture gate and the asynchronous shutter call
are orthogonal to the lot bookkeeping and are not modelled. -/
def handleCapture (lots : List MixedLot) (activeLotIdx : Nat)
    (mode : CaptureMode) (isExtra : Bool) (photo : PhotoFile) :
    Option CaptureError × List MixedLot :=
  if modeMismatchRejected lots activeLotIdx mode isExtra then
    (some CaptureError.modeMismatch, lots)
  else (none, fileCapture lots activeLotIdx mode isExtra photo)

/-- removeImage of LotManager restricted to one lot: drop the main image at
imgIdx (a filter on the index) and re-clamp coverIndex to
max 0 (min (files.length - 1) coverIndex). -/
def removeImageFromLot (lot : MixedLot) (imgIdx : Nat) : MixedLot :=
  let files := lot.files.eraseIdx imgIdx
  let coverIndex : Int := max 0 (min ((files.length : Int) - 1) lot.coverIndex)
  { lot with files := files, coverIndex := coverIndex }

/-- removeImage of LotManager on the lot list. Callers always pass a valid
lot index; an out-of-range access would throw in the source and is modelled
as the identity. -/
def removeImage (lots : List MixedLot) (lotIdx : Nat) (imgIdx : Nat) :
    List MixedLot :=
  match lots[lotIdx]? with
  | none => lots
  | some lot => lots.set lotIdx (removeImageFromLot lot imgIdx)

/-- setCoverImage of LotManager: store imgIdx as the coverIndex of the lot,
exactly as given. Callers always pass a valid lot index; the out-of-range
case is modelled as the identity. -/
def setCoverImage (lots : List MixedLot) (lotIdx : Nat) (imgIdx : Int) :
    List MixedLot :=
  match lots[lotIdx]? with
  | none => lots
  | some lot => lots.set lotIdx { lot with coverIndex := imgIdx }

/-- The operations of the per-lot state machine exercised by the lot
invariant: a capture (main or extra) and removal of a main image. -/
inductive LotOp where
  | capture (mode : CaptureMode) (isExtra : Bool) (photo : PhotoFile)
  | removeMain (imgIdx : Nat)

/-- One step of the per-lot state machine: a capture is filed unless the
mode-mismatch guard rejects it; a removal drops the image and re-clamps the
cover index. -/
def lotStep (lot : MixedLot) (op : LotOp) : MixedLot :=
  match op with
  | LotOp.capture mode isExtra photo =>
    if lotCaptureRejected lot mode isExtra then lot
    else fileCaptureIntoLot lot mode isExtra photo
  | LotOp.removeMain imgIdx => removeImageFromLot lot imgIdx

/-- Run a finite sequence of lot operations. -/
def runLotOps (lot : MixedLot) (ops : List LotOp) : MixedLot :=
  ops.foldl lotStep lot

/-- The cover-index invariant: 0 on an empty main-image list, otherwise a
valid index into it. -/
def coverIndexValid (lot : MixedLot) : Prop :=
  (lot.files = [] → lot.coverIndex = 0) ∧
  (lot.files ≠ [] → 0 ≤ lot.coverIndex ∧ lot.coverIndex < lot.files.length)

/-- The retry interval of the device-enumeration poll, in milliseconds. -/
def pollIntervalMs : Nat := 500

/-- The retry budget of the device-enumeration poll. -/
def maxInitAttempts : Nat := 10

/-- The camera initialization retry state: attempt counter and the terminal
timed-out flag. -/
structure CameraInitState where
  attempts : Nat
  timedOut : Bool
deriving DecidableEq

/-- State when the camera screen opens: zero attempts, not timed out. -/
def initCameraState : CameraInitState :=
  { attempts := 0, timedOut := false }

/-- One empty poll tick: once timed out the interval has been cleared and
nothing changes; otherwise increment the attempt counter and raise the
terminal condition when the budget of 10 is reached. -/
def pollTick (s : CameraInitState) : CameraInitState :=
  if s.timedOut then s
  else
    let next := s.attempts + 1
    { attempts := next, timedOut := decide (next ≥ maxInitAttempts) }

/-- The resolution preset: auto, max, or a megapixel target. -/
inductive ResolutionPreset where
  | auto
  | max
  | megapixels (n : ℚ)
deriving DecidableEq

/-- The two state fields applyResolutionPreset writes. -/
structure ResolutionSettings where
  resolutionPreset : ResolutionPreset
  maxResolutionMode : Bool
deriving DecidableEq

/-- applyResolutionPreset from CameraScreen: the argument is ignored, the
preset is pinned to max and max-resolution mode is enabled. -/
def applyResolutionPreset (_preset : ResolutionPreset) :
    ResolutionPreset × Bool :=
  (ResolutionPreset.max, true)

/-- The visibility effect of CameraScreen: whenever the screen becomes
visible, applyResolutionPreset is invoked (with max). -/
def onCameraVisible (s : ResolutionSettings) : ResolutionSettings :=
  let r := applyResolutionPreset ResolutionPreset.max
  { s with resolutionPreset := r.1, maxResolutionMode := r.2 }

/-- An entry of the zoom preset row: label and zoom factor. -/
structure ZoomPreset where
  label : String
  value : ℚ
deriving DecidableEq

/-- Whether the optional physicalDevices list contains a telephoto lens,
with the JavaScript optional chain reading undefined as false. -/
def hasTelephotoOf (physicalDevices : Option (List LensKind)) : Bool :=
  match physicalDevices with
  | some l => l.contains LensKind.telephoto
  | none => false

/-- Whether the optional physicalDevices list contains an ultra-wide lens. -/
def hasUltraWideLens (physicalDevices : Option (List LensKind)) : Bool :=
  match physicalDevices with
  | some l => l.contains LensKind.ultraWide
  | none => false

/-- zoomPresets from CameraScreen: UW at minZoom when an ultra-wide lens is
usable and minZoom is below neutral; 1x at neutralZoom; 2x and 5x multiples
of neutralZoom when maxZoom covers them; 3x at min (3 times neutral) maxZoom
when a telephoto lens is present or maxZoom covers it. minZoom is the
derived minimum (neutralZoom when max-resolution mode is active). -/
def zoomPresets (physicalDevices : Option (List LensKind))
    (maxResolutionMode : Bool) (minZoom neutralZoom maxZoom : ℚ) :
    List ZoomPreset :=
  (if (!maxResolutionMode &&
      (hasUltraWideLens physicalDevices ||
        decide (neutralZoom > minZoom + 5 / 100))) &&
      decide (minZoom < neutralZoom) then
    [{ label := "UW", value := minZoom }] else [])
  ++ [{ label := "1x", value := neutralZoom }]
  ++ (if maxZoom ≥ neutralZoom * 2 then
    [{ label := "2x", value := neutralZoom * 2 }] else [])
  ++ (if hasTelephotoOf physicalDevices ||
      decide (maxZoom ≥ neutralZoom * 3) then
    [{ label := "3x", value := min (neutralZoom * 3) maxZoom }] else [])
  ++ (if maxZoom ≥ neutralZoom * 5 then
    [{ label := "5x", value := neutralZoom * 5 }] else [])

/-- The pinch gesture reference span: a full pinch covers one scale unit. -/
def SCALE_FULL_ZOOM : ℚ := 3

/-- Modelled from the spec: the interpolate helper of the animation library
(external to this repository) on a three-point range with clamped
extrapolation, as used by the pinch gesture. The input is clamped into the
range and mapped piecewise linearly onto the outputs. -/
def interp3 (x i0 i1 i2 o0 o1 o2 : ℚ) : ℚ :=
  let xc := max i0 (min x i2)
  if xc ≤ i1 then o0 + (xc - i0) * (o1 - o0) / (i1 - i0)
  else o1 + (xc - i1) * (o2 - o1) / (i2 - i1)

/-- The onUpdate body of the pinch gesture in CameraScreen: map the gesture
scale into [-1, 1] through the fixed reference range, then onto
[minZoom, maxZoom] anchored at the zoom captured at gesture start. -/
def pinchZoomUpdate (eventScale minZoom pinchStartZoom maxZoom : ℚ) : ℚ :=
  let scale := interp3 eventScale (1 - 1 / SCALE_FULL_ZOOM) 1 SCALE_FULL_ZOOM
    (-1) 0 1
  interp3 scale (-1) 0 1 minZoom pinchStartZoom maxZoom

/-- setZoomLevel from CameraScreen (the preset-tap path): clamp the
requested level into [minZoom, maxZoom]. -/
def setZoomLevel (level minZoom maxZoom : ℚ) : ℚ :=
  max minZoom (min level maxZoom)

/-- A screen-space rectangle with origin and size, as the focus guide
overlay reports itself. -/
structure ScreenRect where
  x : ℚ
  y : ℚ
  width : ℚ
  height : ℚ
deriving DecidableEq

/-- The on-screen rectangle occupied by the live preview. -/
structure PreviewRect where
  left : ℚ
  top : ℚ
  width : ℚ
  height : ℚ
deriving DecidableEq

/-- The closure state computeNormalizedFocusBox reads: the focus toggle, the
overlay rectangle, orientation, the letterboxed portrait preview rectangle,
and the camera view and window dimensions. -/
structure CameraGeom where
  focusOn : Bool
  focusBoxRect : Option ScreenRect
  isLandscape : Bool
  portraitPreviewRect : PreviewRect
  cameraViewWidth : ℚ
  cameraViewHeight : ℚ
  dimWidth : ℚ
  dimHeight : ℚ
deriving DecidableEq

/-- The JavaScript logical-or fallback on numbers: zero is falsy. -/
def jsOr (a b : ℚ) : ℚ :=
  if a = 0 then b else a

/-- The preview rectangle computeNormalizedFocusBox works in: the portrait
letterbox rectangle in portrait, the camera view (or window) dimensions at
origin zero in landscape. -/
def previewRectOf (g : CameraGeom) : PreviewRect :=
  { left := if !g.isLandscape then g.portraitPreviewRect.left else 0
    top := if !g.isLandscape then g.portraitPreviewRect.top else 0
    width := if !g.isLandscape then g.portraitPreviewRect.width
      else jsOr g.cameraViewWidth g.dimWidth
    height := if !g.isLandscape then g.portraitPreviewRect.height
      else jsOr g.cameraViewHeight g.dimHeight }

/-- Steps 1 and 2 of computeNormalizedFocusBox: intersect the overlay
rectangle with the preview rectangle, reject a degenerate intersection
(below 8 screen pixels in either dimension), and normalize it relative to
the preview rectangle. -/
def normalizedIntersection (g : CameraGeom) : Option FocusRect :=
  if !g.focusOn then none
  else
    match g.focusBoxRect with
    | none => none
    | some fb =>
      let pr := previewRectOf g
      if pr.width ≤ 0 ∨ pr.height ≤ 0 then none
      else
        let boxLeft := max pr.left fb.x
        let boxTop := max pr.top fb.y
        let boxRight := min (pr.left + pr.width) (fb.x + fb.width)
        let boxBottom := min (pr.top + pr.height) (fb.y + fb.height)
        let intersectionW := boxRight - boxLeft
        let intersectionH := boxBottom - boxTop
        if intersectionW < 8 ∨ intersectionH < 8 then none
        else some
          { x := (boxLeft - pr.left) / pr.width
            y := (boxTop - pr.top) / pr.height
            w := intersectionW / pr.width
            h := intersectionH / pr.height }

/-- computeNormalizedFocusBox from CameraScreen: normalize the overlay and
preview intersection, apply the 90 degree coordinate swap when the captured
image orientation differs from the preview orientation, clamp into the unit
square, and reject a rectangle thinner than 0.01 in either dimension. The
finiteness guard of the source is vacuous over the rationals. -/
def computeNormalizedFocusBox (g : CameraGeom) (imageWidth imageHeight : ℚ) :
    Option FocusRect :=
  match normalizedIntersection g with
  | none => none
  | some n =>
    let pr := previewRectOf g
    let imageLandscape := decide (imageWidth ≥ imageHeight)
    let previewLandscape := decide (pr.width ≥ pr.height)
    let s : FocusRect :=
      if imageLandscape ≠ previewLandscape then
        { x := 1 - (n.y + n.h), y := n.x, w := n.h, h := n.w }
      else n
    let normX := max 0 (min 1 s.x)
    let normY := max 0 (min 1 s.y)
    let normW := max 0 (min (1 - normX) s.w)
    let normH := max 0 (min (1 - normY) s.h)
    if normW < 1 / 100 ∨ normH < 1 / 100 then none
    else some { x := normX, y := normY, w := normW, h := normH }

/-- The device/format scan of bestHighResDevice folded over explicit
(device, format) pairs. -/
def bestPairStep (s : Option CameraDevice × Nat)
    (p : CameraDevice × CameraFormat) : Option CameraDevice × Nat :=
  bestStep p.1 s p.2

/-- All (device, format) pairs of the back cameras, in scan order. -/
def backFormatPairs (devices : List CameraDevice) :
    List (CameraDevice × CameraFormat) :=
  match devices with
  | [] => []
  | dev :: rest =>
    if dev.position = CameraPosition.back then
      dev.formats.map (fun f => (dev, f)) ++ backFormatPairs rest
    else backFormatPairs rest

/-- A concrete portrait capture geometry: focus guide at (10, 20) sized
50 by 60 over a 100 by 200 preview at the origin. -/
def demoGeom : CameraGeom :=
  { focusOn := true
    focusBoxRect := some { x := 10, y := 20, width := 50, height := 60 }
    isLandscape := false
    portraitPreviewRect := { left := 0, top := 0, width := 100, height := 200 }
    cameraViewWidth := 100
    cameraViewHeight := 200
    dimWidth := 100
    dimHeight := 200 }

/-- The normalized intersection of the demo geometry. -/
def demoNorm : FocusRect :=
  { x := 1 / 10, y := 1 / 10, w := 1 / 2, h := 3 / 10 }

/-- The focus box the demo geometry produces for a landscape 200 by 100
capture (a 90 degree swap of the normalized intersection). -/
def demoFocusResult : FocusRect :=
  { x := 3 / 5, y := 1 / 10, w := 3 / 10, h := 1 / 2 }

/-- A 12-megapixel format. -/
def demoFormatBig : CameraFormat :=
  { photoWidth := 4000, photoHeight := 3000,
    videoWidth := 1920, videoHeight := 1080 }

/-- A 1.9-megapixel format. -/
def demoFormatSmall : CameraFormat :=
  { photoWidth := 1600, photoHeight := 1200,
    videoWidth := 1280, videoHeight := 720 }

/-- A logical triple-lens back camera also reaching 12 megapixels. -/
def demoMultiDev : CameraDevice :=
  { id := "back-multi", position := CameraPosition.back,
    physicalDevices := [LensKind.ultraWide, LensKind.wide, LensKind.telephoto],
    formats := [demoFormatBig, demoFormatSmall],
    minZoom := 1 / 2, neutralZoom := 1, maxZoom := 10 }

/-- A dedicated wide back camera reaching 12 megapixels. -/
def demoWideDev : CameraDevice :=
  { id := "back-wide", position := CameraPosition.back,
    physicalDevices := [LensKind.wide],
    formats := [demoFormatSmall, demoFormatBig],
    minZoom := 1, neutralZoom := 1, maxZoom := 8 }

/-- The demo device list: the multi-lens camera enumerates first. -/
def demoDevices : List CameraDevice := [demoMultiDev, demoWideDev]

/-- The scan invariant relative to the universe of scanned pairs: a missing
best device means a zero count, and a present best device owns a scanned
format realizing the positive running count. -/
def BestInv (U : List (CameraDevice × CameraFormat))
    (s : Option CameraDevice × Nat) : Prop :=
  (s.1 = none → s.2 = 0) ∧
  (∀ d, s.1 = some d → 0 < s.2 ∧ ∃ f, (d, f) ∈ U ∧ fmtPixels f = s.2)

/-- A concrete captured photo used by witnesses. -/
def demoPhoto : PhotoFile :=
  { uri := "file://p1.jpg", name := "p1.jpg", type := "image/jpeg" }

/-- A second concrete captured photo. -/
def demoPhoto2 : PhotoFile :=
  { uri := "file://p2.jpg", name := "p2.jpg", type := "image/jpeg" }

/-- A third concrete captured photo. -/
def demoPhoto3 : PhotoFile :=
  { uri := "file://p3.jpg", name := "p3.jpg", type := "image/jpeg" }

/-- A lot locked to Bundle mode holding two main images. -/
def demoLotA : MixedLot :=
  { id := "lot-a", mode := some CaptureMode.single_lot,
    files := [demoPhoto, demoPhoto2], extraFiles := [], coverIndex := 0 }

/-- A fresh empty lot. -/
def demoLotB : MixedLot :=
  { id := "lot-b", files := [], extraFiles := [], coverIndex := 0 }

/-- A lot with a single main image and cover index 0. -/
def demoLotOne : MixedLot :=
  { id := "lot-1", files := [demoPhoto], extraFiles := [], coverIndex := 0 }

/-- A lot with three main images and cover index 2. -/
def demoLot3 : MixedLot :=
  { id := "lot-3", mode := some CaptureMode.per_item,
    files := [demoPhoto, demoPhoto2, demoPhoto3], extraFiles := [],
    coverIndex := 2 }

/-- C10: applyResolutionPreset ignores its argument — every preset value is
mapped to the Max preset with max-resolution mode enabled — and whenever the
camera screen becomes visible the preset is re-applied as Max, so no other
preset persists across a screen open. -/
theorem applyResolutionPreset_ignores_argument :
    (∀ p : ResolutionPreset,
      applyResolutionPreset p = (ResolutionPreset.max, true)) ∧
    (∀ s : ResolutionSettings,
      (onCameraVisible s).resolutionPreset = ResolutionPreset.max ∧
      (onCameraVisible s).maxResolutionMode = true) :=
  ⟨fun _ => rfl, fun _ => ⟨rfl, rfl⟩⟩

/-- C8: device-enumeration retry polls at a fixed 500ms interval with a
budget of 10 attempts; after 4 consecutive empty polls the terminal
condition has not been raised, after 10 it has been raised, and once raised
a further tick changes nothing (polling has stopped). -/
theorem cameraInit_retry_budget :
    pollIntervalMs = 500 ∧ maxInitAttempts = 10 ∧
    (pollTick^[4] initCameraState).timedOut = false ∧
    (pollTick^[4] initCameraState).attempts = 4 ∧
    (pollTick^[10] initCameraState).timedOut = true ∧
    (∀ s : CameraInitState, s.timedOut = true → pollTick s = s) := by
  refine ⟨rfl, rfl, by decide, by decide, by decide, ?_⟩
  intro s hs
  simp [pollTick, hs]

/-- Witness: the retry theorem applied at a concrete timed-out state. -/
theorem cameraInit_retry_budget_witness :
    pollTick { attempts := 10, timedOut := true } =
      { attempts := 10, timedOut := true } :=
  cameraInit_retry_budget.2.2.2.2.2 { attempts := 10, timedOut := true } rfl

/-- C9: frame property of filing a capture result: only the lot at the
active index changes, and when no lot exists at that index the lot list is
returned unchanged, dropping the captured asset. -/
theorem fileCapture_frame :
    ∀ (lots : List MixedLot) (i : Nat) (mode : CaptureMode) (isExtra : Bool)
      (photo : PhotoFile),
      (∀ j : Nat, j ≠ i →
        (fileCapture lots i mode isExtra photo)[j]? = lots[j]?) ∧
      (lots[i]? = none → fileCapture lots i mode isExtra photo = lots) := by
  intro lots i mode isExtra photo
  constructor
  · intro j hj
    unfold fileCapture
    cases h : lots[i]? with
    | none => rfl
    | some lot => simp [List.getElem?_set_ne (Ne.symm hj)]
  · intro h
    unfold fileCapture
    rw [h]

/-- Witness: the frame property at a concrete two-lot list, checking an
untouched sibling lot and an out-of-range active index. -/
theorem fileCapture_frame_witness :
    (fileCapture [demoLotA, demoLotB] 0 CaptureMode.per_item false
      demoPhoto)[1]? = some demoLotB ∧
    fileCapture [demoLotA, demoLotB] 5 CaptureMode.per_item false demoPhoto =
      [demoLotA, demoLotB] := by
  constructor
  · rw [(fileCapture_frame [demoLotA, demoLotB] 0 CaptureMode.per_item false
      demoPhoto).1 1 (by decide)]
    rfl
  · exact (fileCapture_frame [demoLotA, demoLotB] 5 CaptureMode.per_item false
      demoPhoto).2 (by rfl)

/-- C2: mode locking of capture on a lot that exists at the active index:
a main capture against a different locked mode is rejected with ModeMismatch
and the lot list is returned untouched; a main capture with a matching or
unset mode sets the mode and prepends to the main images; an extra capture
always succeeds, prepends to the extra images, and never changes the mode. -/
theorem capture_mode_locking :
    ∀ (lots : List MixedLot) (i : Nat) (lot : MixedLot) (mode : CaptureMode)
      (photo : PhotoFile), lots[i]? = some lot →
      (∀ m, lot.mode = some m → m ≠ mode →
        handleCapture lots i mode false photo =
          (some CaptureError.modeMismatch, lots)) ∧
      (lot.mode = none ∨ lot.mode = some mode →
        handleCapture lots i mode false photo =
          (none, lots.set i
            { lot with mode := some mode, files := photo :: lot.files })) ∧
      (handleCapture lots i mode true photo =
        (none, lots.set i
          { lot with extraFiles := photo :: lot.extraFiles })) := by
  intro lots i lot mode photo h
  refine ⟨?_, ?_, ?_⟩
  · intro m hm hne
    simp [handleCapture, modeMismatchRejected, lotCaptureRejected,
      fileCapture, fileCaptureIntoLot, h, hm, hne]
  · intro hmode
    rcases hmode with hmode | hmode <;>
      simp [handleCapture, modeMismatchRejected, lotCaptureRejected,
        fileCapture, fileCaptureIntoLot, h, hmode]
  · cases hm : lot.mode <;>
      simp [handleCapture, modeMismatchRejected, lotCaptureRejected,
        fileCapture, fileCaptureIntoLot, h, hm]

/-- Witness: scenario with a Bundle-locked lot holding two main images — a
PerItem main capture is rejected, a PerItem extra capture is filed into the
extra images leaving the mode untouched. -/
theorem capture_mode_locking_witness :
    handleCapture [demoLotA, demoLotB] 0 CaptureMode.per_item false
      demoPhoto3 = (some CaptureError.modeMismatch, [demoLotA, demoLotB]) ∧
    handleCapture [demoLotA, demoLotB] 0 CaptureMode.per_item true demoPhoto3 =
      (none, [{ demoLotA with extraFiles := [demoPhoto3] }, demoLotB]) := by
  have h := capture_mode_locking [demoLotA, demoLotB] 0 demoLotA
    CaptureMode.per_item demoPhoto3 (by rfl)
  refine ⟨h.1 CaptureMode.single_lot rfl (by decide), ?_⟩
  simpa using h.2.2

/-- C6 counterexample: setCover with the out-of-range index 5 on a lot whose
main-image list has length 1 stores coverIndex 5 unclamped — clamping into
the valid range would have stored 0. -/
theorem setCoverImage_no_clamp_cex :
    (setCoverImage [demoLotOne] 0 5).map MixedLot.coverIndex = [5] ∧
    demoLotOne.files.length = 1 ∧
    ¬ ((5 : Int) < (demoLotOne.files.length : Int)) := by
  decide

/-- C6 amended: setCover stores the given main-image index as coverIndex
exactly as passed, with no clamping and no empty-list no-op; the stored
value is a valid index exactly when the caller passes one in range. -/
theorem setCoverImage_stores_index :
    ∀ (lots : List MixedLot) (i : Nat) (k : Int) (lot : MixedLot),
      lots[i]? = some lot →
      (setCoverImage lots i k)[i]? = some { lot with coverIndex := k } := by
  intro lots i k lot h
  unfold setCoverImage
  rw [h]
  have hi : i < lots.length := by
    by_contra hcon
    rw [List.getElem?_eq_none (Nat.le_of_not_lt hcon)] at h
    cases h
  simp [List.getElem?_set_self, hi]

/-- Witness: setCover at a concrete in-range index. -/
theorem setCoverImage_stores_index_witness :
    (setCoverImage [demoLotOne] 0 0)[0]? =
      some { demoLotOne with coverIndex := 0 } :=
  setCoverImage_stores_index [demoLotOne] 0 0 demoLotOne (by rfl)

/-- The main-image list produced by removeImageFromLot. -/
theorem removeImageFromLot_files (lot : MixedLot) (imgIdx : Nat) :
    (removeImageFromLot lot imgIdx).files = lot.files.eraseIdx imgIdx := rfl

/-- The cover index produced by removeImageFromLot. -/
theorem removeImageFromLot_cover (lot : MixedLot) (imgIdx : Nat) :
    (removeImageFromLot lot imgIdx).coverIndex =
      max 0 (min (((lot.files.eraseIdx imgIdx).length : Int) - 1)
        lot.coverIndex) := rfl

/-- Removing a main image always re-establishes the cover-index invariant,
whatever the state before. -/
theorem coverIndexValid_removeImageFromLot (lot : MixedLot) (imgIdx : Nat) :
    coverIndexValid (removeImageFromLot lot imgIdx) := by
  constructor
  · intro h0
    rw [removeImageFromLot_files] at h0
    rw [removeImageFromLot_cover, h0]
    simp only [List.length_nil]
    omega
  · intro hne
    rw [removeImageFromLot_files] at hne
    have hpos : 0 < (lot.files.eraseIdx imgIdx).length :=
      List.length_pos.mpr hne
    rw [removeImageFromLot_cover, removeImageFromLot_files]
    omega

/-- Filing an accepted capture preserves the cover-index invariant. -/
theorem coverIndexValid_fileCaptureIntoLot (lot : MixedLot)
    (mode : CaptureMode) (isExtra : Bool) (photo : PhotoFile)
    (h : coverIndexValid lot) :
    coverIndexValid (fileCaptureIntoLot lot mode isExtra photo) := by
  cases isExtra with
  | true =>
    have heq : fileCaptureIntoLot lot mode true photo =
        { lot with extraFiles := photo :: lot.extraFiles } := rfl
    rw [heq]
    exact h
  | false =>
    have heq : fileCaptureIntoLot lot mode false photo =
        { lot with mode := some mode, files := photo :: lot.files } := rfl
    rw [heq]
    constructor
    · intro h0
      simp at h0
    · intro _
      rcases h with ⟨h0, h1⟩
      show 0 ≤ lot.coverIndex ∧
        lot.coverIndex < ((photo :: lot.files).length : Int)
      simp only [List.length_cons]
      by_cases hf : lot.files = []
      · have hz := h0 hf
        push_cast
        omega
      · have hb := h1 hf
        push_cast at hb ⊢
        omega

/-- Every lot-machine step preserves the cover-index invariant. -/
theorem coverIndexValid_lotStep (lot : MixedLot) (op : LotOp)
    (h : coverIndexValid lot) : coverIndexValid (lotStep lot op) := by
  cases op with
  | capture mode isExtra photo =>
    cases hb : lotCaptureRejected lot mode isExtra with
    | true => simpa [lotStep, hb] using h
    | false =>
      simpa [lotStep, hb] using
        coverIndexValid_fileCaptureIntoLot lot mode isExtra photo h
  | removeMain imgIdx => exact coverIndexValid_removeImageFromLot lot imgIdx

/-- Running any finite sequence of lot operations preserves the cover-index
invariant. -/
theorem coverIndexValid_runLotOps :
    ∀ (ops : List LotOp) (lot : MixedLot), coverIndexValid lot →
      coverIndexValid (runLotOps lot ops) := by
  intro ops
  induction ops with
  | nil => intro lot h; exact h
  | cons op ops ih =>
    intro lot h
    exact ih (lotStep lot op) (coverIndexValid_lotStep lot op h)

/-- A freshly created lot satisfies the cover-index invariant. -/
theorem coverIndexValid_createNewLot (id : String) :
    coverIndexValid (createNewLot id) := by
  constructor
  · intro _; rfl
  · intro h; exact absurd rfl h

/-- C4: starting from a freshly created lot, any finite sequence of captures
(main or extra) and main-image removals keeps coverIndex a valid index into
the main-image list whenever that list is non-empty and 0 when it is empty;
in particular removing the image at index 2 of a lot with three main images
and coverIndex 2 leaves coverIndex 1. -/
theorem lot_cover_invariant :
    (∀ (id : String) (ops : List LotOp),
      coverIndexValid (runLotOps (createNewLot id) ops)) ∧
    (∀ lot : MixedLot, lot.files.length = 3 → lot.coverIndex = 2 →
      (lotStep lot (LotOp.removeMain 2)).coverIndex = 1) := by
  constructor
  · intro id ops
    exact coverIndexValid_runLotOps ops (createNewLot id)
      (coverIndexValid_createNewLot id)
  · intro lot h3 hc
    have heq : (lotStep lot (LotOp.removeMain 2)).coverIndex =
        max 0 (min (((lot.files.eraseIdx 2).length : Int) - 1)
          lot.coverIndex) := rfl
    rw [heq, List.length_eraseIdx, h3, hc]
    norm_num

/-- Witness: scenario with three main images and cover index 2; the run of
the invariant theorem on a concrete operation sequence is checked too. -/
theorem lot_cover_invariant_witness :
    (lotStep demoLot3 (LotOp.removeMain 2)).coverIndex = 1 :=
  lot_cover_invariant.2 demoLot3 (by rfl) (by rfl)

/-- Clamped three-point interpolation stays within its monotone output
bounds. -/
theorem interp3_bounds (x i0 i1 i2 o0 o1 o2 : ℚ) (h01 : i0 < i1)
    (h12 : i1 < i2) (ho01 : o0 ≤ o1) (ho12 : o1 ≤ o2) :
    o0 ≤ interp3 x i0 i1 i2 o0 o1 o2 ∧ interp3 x i0 i1 i2 o0 o1 o2 ≤ o2 := by
  have hxc0 : i0 ≤ max i0 (min x i2) := le_max_left _ _
  have hxc2 : max i0 (min x i2) ≤ i2 := by
    rcases le_total i0 (min x i2) with h | h
    · rw [max_eq_right h]; exact min_le_right _ _
    · rw [max_eq_left h]; linarith
  simp only [interp3]
  set xc := max i0 (min x i2) with hxcdef
  by_cases hle : xc ≤ i1
  · rw [if_pos hle, mul_div_right_comm]
    have ht0 : 0 ≤ (xc - i0) / (i1 - i0) :=
      div_nonneg (by linarith) (by linarith)
    have ht1 : (xc - i0) / (i1 - i0) ≤ 1 := by
      rw [div_le_one (by linarith)]
      linarith
    constructor
    · nlinarith [mul_nonneg ht0 (sub_nonneg.mpr ho01)]
    · nlinarith [mul_le_mul_of_nonneg_right ht1 (sub_nonneg.mpr ho01)]
  · rw [if_neg hle, mul_div_right_comm]
    push_neg at hle
    have ht0 : 0 ≤ (xc - i1) / (i2 - i1) :=
      div_nonneg (by linarith) (by linarith)
    have ht1 : (xc - i1) / (i2 - i1) ≤ 1 := by
      rw [div_le_one (by linarith)]
      linarith
    constructor
    · nlinarith [mul_nonneg ht0 (sub_nonneg.mpr ho12)]
    · nlinarith [mul_le_mul_of_nonneg_right ht1 (sub_nonneg.mpr ho12)]

/-- C7: for every pinch gesture scale, when the pinch anchor lies within
the device zoom range the pinch mapping produces a factor with
minZoom ≤ factor ≤ maxZoom; and the preset path clamps its requested factor
into the same range. -/
theorem zoom_clamped :
    ∀ (eventScale minZoom pinchStartZoom maxZoom level : ℚ),
      (minZoom ≤ pinchStartZoom → pinchStartZoom ≤ maxZoom →
        minZoom ≤ pinchZoomUpdate eventScale minZoom pinchStartZoom maxZoom ∧
        pinchZoomUpdate eventScale minZoom pinchStartZoom maxZoom ≤ maxZoom) ∧
      (minZoom ≤ maxZoom →
        minZoom ≤ setZoomLevel level minZoom maxZoom ∧
        setZoomLevel level minZoom maxZoom ≤ maxZoom) := by
  intro eventScale minZoom pinchStartZoom maxZoom level
  constructor
  · intro h1 h2
    exact interp3_bounds _ (-1) 0 1 minZoom pinchStartZoom maxZoom
      (by norm_num) (by norm_num) h1 h2
  · intro h
    unfold setZoomLevel
    constructor
    · exact le_max_left _ _
    · rcases le_total minZoom (min level maxZoom) with hm | hm
      · rw [max_eq_right hm]; exact min_le_right _ _
      · rw [max_eq_left hm]; exact h
/-- Witness: the zoom clamping theorem at a concrete pinch and preset. -/
theorem zoom_clamped_witness :
    ((1 : ℚ) ≤ pinchZoomUpdate 2 1 2 5 ∧ pinchZoomUpdate 2 1 2 5 ≤ 5) ∧
    ((1 : ℚ) ≤ setZoomLevel 9 1 5 ∧ setZoomLevel 9 1 5 ≤ 5) := by
  have h := zoom_clamped 2 1 2 5 9
  exact ⟨h.1 (by norm_num) (by norm_num), h.2 (by norm_num)⟩

/-- A zoom-preset list whose factors are strictly increasing along the list
has pairwise distinct factors. -/
theorem pairwise_ne_of_chain (l : List ZoomPreset)
    (h : l.Chain' fun a b => a.value < b.value) :
    l.Pairwise fun a b => a.value ≠ b.value := by
  haveI : IsTrans ZoomPreset (fun a b => a.value < b.value) :=
    ⟨fun a b c h1 h2 => lt_trans h1 h2⟩
  exact (List.chain'_iff_pairwise.mp h).imp fun hlt => ne_of_lt hlt

/-- When the 3x entry condition holds and any telephoto device covers
3 times neutral, maxZoom covers 3 times neutral. -/
theorem threeXCovered (phys : Option (List LensKind)) (n maxZ : ℚ)
    (htele : hasTelephotoOf phys = true → n * 3 ≤ maxZ)
    (h : (hasTelephotoOf phys || decide (maxZ ≥ n * 3)) = true) :
    n * 3 ≤ maxZ := by
  rcases Bool.or_eq_true_iff.mp h with h | h
  · exact htele h
  · exact of_decide_eq_true h

/-- C5 counterexample: a back device with a telephoto lens whose maximum
zoom is exactly twice neutral yields both a 2x and a 3x entry at factor 2,
so the preset list is not duplicate-free. -/
theorem zoomPresets_duplicate_cex :
    zoomPresets (some [LensKind.wide, LensKind.telephoto]) false 1 1 2 =
      [{ label := "1x", value := 1 }, { label := "2x", value := 2 },
       { label := "3x", value := 2 }] ∧
    ¬ List.Pairwise (fun a b : ZoomPreset => a.value ≠ b.value)
        (zoomPresets (some [LensKind.wide, LensKind.telephoto]) false 1 1 2) := by
  have he : zoomPresets (some [LensKind.wide, LensKind.telephoto]) false 1 1 2 =
      [{ label := "1x", value := 1 }, { label := "2x", value := 2 },
       { label := "3x", value := 2 }] := by
    simp [zoomPresets, hasTelephotoOf, hasUltraWideLens]
    norm_num
  refine ⟨he, ?_⟩
  rw [he]
  intro h
  have hp := (List.pairwise_cons.mp (List.pairwise_cons.mp h).2).1
  exact absurd rfl (hp { label := "3x", value := 2 } (by simp))

/-- C5 amended: the zoom preset factors are pairwise distinct provided the
neutral factor is positive and the 3x entry is not capped by maxZoom, that
is, unless the device has a telephoto lens while maxZoom is below 3 times
neutral (in which case the capped 3x entry can collide with the 2x or 1x
entry). -/
theorem zoomPresets_distinct (phys : Option (List LensKind)) (maxRes : Bool)
    (minZ n maxZ : ℚ) (hn : 0 < n)
    (htele : hasTelephotoOf phys = true → n * 3 ≤ maxZ) :
    (zoomPresets phys maxRes minZ n maxZ).Pairwise
      (fun a b => a.value ≠ b.value) := by
  apply pairwise_ne_of_chain
  by_cases hc1 : ((!maxRes &&
      (hasUltraWideLens phys || decide (n > minZ + 5 / 100))) &&
      decide (minZ < n)) = true <;>
  by_cases hc2 : maxZ ≥ n * 2 <;>
  by_cases hc3 : (hasTelephotoOf phys || decide (maxZ ≥ n * 3)) = true <;>
  by_cases hc4 : maxZ ≥ n * 5
  all_goals try have hA : minZ < n :=
    of_decide_eq_true (Bool.and_eq_true_iff.mp hc1).2
  all_goals try have hC : n * 3 ≤ maxZ := threeXCovered phys n maxZ htele hc3
  all_goals try have hmin : min (n * 3) maxZ = n * 3 := min_eq_left hC
  all_goals
    simp only [zoomPresets, hc1, hc2, hc3, hc4, if_true, if_false,
      Bool.false_eq_true, Bool.true_eq_false, eq_self_iff_true, not_true,
      not_false_iff, List.nil_append, List.append_nil, List.cons_append,
      List.singleton_append, List.chain'_cons, List.chain'_singleton,
      and_true]
  all_goals try rw [hmin]
  all_goals repeat' apply And.intro
  all_goals linarith

/-- Witness: the amended preset-distinctness theorem at a concrete wide-only
device with zoom range 1 to 10. -/
theorem zoomPresets_distinct_witness :
    (zoomPresets (some [LensKind.wide]) false 1 1 10).Pairwise
      (fun a b => a.value ≠ b.value) :=
  zoomPresets_distinct (some [LensKind.wide]) false 1 1 10 (by norm_num)
    (fun h => by simp [hasTelephotoOf] at h)

/-- The normalized overlay-preview intersection lies inside the unit square
with positive width and height. -/
theorem normalizedIntersection_bounds (g : CameraGeom) (n : FocusRect)
    (h : normalizedIntersection g = some n) :
    0 ≤ n.x ∧ 0 < n.w ∧ n.x + n.w ≤ 1 ∧
    0 ≤ n.y ∧ 0 < n.h ∧ n.y + n.h ≤ 1 := by
  unfold normalizedIntersection at h
  split at h
  · cases h
  split at h
  · cases h
  rename_i fb heq
  dsimp only at h
  split at h
  · cases h
  rename_i hpr
  split at h
  · cases h
  rename_i hint
  push_neg at hpr hint
  obtain ⟨hw, hh⟩ := hpr
  obtain ⟨hiw, hih⟩ := hint
  cases h
  set pr := previewRectOf g
  constructor
  · exact div_nonneg (sub_nonneg.mpr (le_max_left _ _)) (le_of_lt hw)
  constructor
  · exact div_pos (by linarith) hw
  constructor
  · rw [div_add_div_same, div_le_one hw]
    have hr := min_le_left (pr.left + pr.width) (fb.x + fb.width)
    linarith
  constructor
  · exact div_nonneg (sub_nonneg.mpr (le_max_left _ _)) (le_of_lt hh)
  constructor
  · exact div_pos (by linarith) hh
  · rw [div_add_div_same, div_le_one hh]
    have hb := min_le_left (pr.top + pr.height) (fb.y + fb.height)
    linarith

/-- A clamped coordinate plus its clamped extent never exceeds 1. -/
theorem clamp_sum_le_one (a w : ℚ) :
    max 0 (min 1 a) + max 0 (min (1 - max 0 (min 1 a)) w) ≤ 1 := by
  have h1 : max 0 (min 1 a) ≤ 1 := max_le (by norm_num) (min_le_left _ _)
  have h2 : max 0 (min (1 - max 0 (min 1 a)) w) ≤ 1 - max 0 (min 1 a) :=
    max_le (by linarith) (min_le_left _ _)
  linarith

/-- The clamp-and-threshold tail of computeNormalizedFocusBox keeps every
accepted rectangle inside the unit square with both extents at least 0.01,
whatever rectangle s it starts from. -/
theorem clampedBoxBounds (s r : FocusRect)
    (h : (if max 0 (min (1 - max 0 (min 1 s.x)) s.w) < 1 / 100 ∨
          max 0 (min (1 - max 0 (min 1 s.y)) s.h) < 1 / 100 then none
        else some
          { x := max 0 (min 1 s.x)
            y := max 0 (min 1 s.y)
            w := max 0 (min (1 - max 0 (min 1 s.x)) s.w)
            h := max 0 (min (1 - max 0 (min 1 s.y)) s.h) }) = some r) :
    0 ≤ r.x ∧ 0 ≤ r.y ∧ r.x + r.w ≤ 1 ∧ r.y + r.h ≤ 1 ∧
    1 / 100 ≤ r.w ∧ 1 / 100 ≤ r.h := by
  split at h
  · cases h
  rename_i hth
  push_neg at hth
  obtain ⟨hw1, hh1⟩ := hth
  cases h
  exact ⟨le_max_left _ _, le_max_left _ _, clamp_sum_le_one _ _,
    clamp_sum_le_one _ _, hw1, hh1⟩

/-- C3: computeNormalizedFocusBox is a deterministic function of its inputs;
every returned rectangle satisfies 0 ≤ x, y with x + w ≤ 1 and y + h ≤ 1 and
w, h at least 0.01; and when the captured image orientation differs from the
preview orientation, the returned rectangle is exactly the 90 degree swap of
the normalized intersection. -/
theorem computeNormalizedFocusBox_spec :
    (∀ (g : CameraGeom) (iw ih : ℚ),
      computeNormalizedFocusBox g iw ih = computeNormalizedFocusBox g iw ih) ∧
    (∀ (g : CameraGeom) (iw ih : ℚ) (r : FocusRect),
      computeNormalizedFocusBox g iw ih = some r →
      0 ≤ r.x ∧ 0 ≤ r.y ∧ r.x + r.w ≤ 1 ∧ r.y + r.h ≤ 1 ∧
      1 / 100 ≤ r.w ∧ 1 / 100 ≤ r.h) ∧
    (∀ (g : CameraGeom) (iw ih : ℚ) (r n : FocusRect),
      computeNormalizedFocusBox g iw ih = some r →
      normalizedIntersection g = some n →
      decide (iw ≥ ih) ≠
        decide ((previewRectOf g).width ≥ (previewRectOf g).height) →
      r = { x := 1 - (n.y + n.h), y := n.x, w := n.h, h := n.w }) := by
  refine ⟨fun g iw ih => rfl, ?_, ?_⟩
  · intro g iw ih r h
    unfold computeNormalizedFocusBox at h
    split at h
    · cases h
    rename_i n hn
    dsimp only at h
    exact clampedBoxBounds _ r h
  · intro g iw ih r n h hn hdiff
    unfold computeNormalizedFocusBox at h
    rw [hn] at h
    dsimp only at h
    rw [if_pos hdiff] at h
    dsimp only at h
    obtain ⟨hx0, hw0, hxw, hy0, hh0, hyh⟩ :=
      normalizedIntersection_bounds g n hn
    have e1 : max 0 (min 1 (1 - (n.y + n.h))) = 1 - (n.y + n.h) := by
      rw [min_eq_right (by linarith), max_eq_right (by linarith)]
    have e2 : max 0 (min 1 n.x) = n.x := by
      rw [min_eq_right (by linarith), max_eq_right (by linarith)]
    have e3 : (1 : ℚ) - (1 - (n.y + n.h)) = n.y + n.h := by ring
    have e4 : max 0 (min (n.y + n.h) n.h) = n.h := by
      rw [min_eq_right (by linarith), max_eq_right (by linarith)]
    have e5 : max 0 (min (1 - n.x) n.w) = n.w := by
      rw [min_eq_right (by linarith), max_eq_right (by linarith)]
    simp only [e1, e2, e3, e4, e5] at h
    split at h
    · cases h
    injection h with h
    exact h.symm




/-- Witness: the focus-box theorem at the demo geometry with a landscape
capture, checking the returned rectangle, its bounds, and the swap shape. -/
theorem computeNormalizedFocusBox_spec_witness :
    computeNormalizedFocusBox demoGeom 200 100 = some demoFocusResult ∧
    (0 ≤ demoFocusResult.x ∧ 0 ≤ demoFocusResult.y ∧
      demoFocusResult.x + demoFocusResult.w ≤ 1 ∧
      demoFocusResult.y + demoFocusResult.h ≤ 1 ∧
      1 / 100 ≤ demoFocusResult.w ∧ 1 / 100 ≤ demoFocusResult.h) ∧
    demoFocusResult =
      { x := 1 - (demoNorm.y + demoNorm.h), y := demoNorm.x,
        w := demoNorm.h, h := demoNorm.w } := by
  have he : computeNormalizedFocusBox demoGeom 200 100 =
      some demoFocusResult := by
    norm_num [computeNormalizedFocusBox, normalizedIntersection,
      previewRectOf, jsOr, demoGeom, demoFocusResult]
  have hn : normalizedIntersection demoGeom = some demoNorm := by
    norm_num [normalizedIntersection, previewRectOf, jsOr, demoGeom, demoNorm]
  refine ⟨he, computeNormalizedFocusBox_spec.2.1 demoGeom 200 100
    demoFocusResult he, ?_⟩
  exact computeNormalizedFocusBox_spec.2.2 demoGeom 200 100 demoFocusResult
    demoNorm he hn (by norm_num [previewRectOf, demoGeom])



/-- The nested device/format fold equals the fold over the flattened
back-device pair list. -/
theorem foldl_bestDevStep_eq (devices : List CameraDevice) :
    ∀ s, devices.foldl bestDevStep s =
      (backFormatPairs devices).foldl bestPairStep s := by
  induction devices with
  | nil => intro s; rfl
  | cons dev rest ih =>
    intro s
    rw [List.foldl_cons, ih]
    by_cases hpos : dev.position = CameraPosition.back
    · have hacc : bestDevStep s dev =
          List.foldl bestPairStep s (dev.formats.map fun f => (dev, f)) := by
        rw [bestDevStep, if_pos hpos, List.foldl_map]
        rfl
      rw [hacc, backFormatPairs, if_pos hpos, List.foldl_append]
    · have hacc : bestDevStep s dev = s := by rw [bestDevStep, if_neg hpos]
      rw [hacc, backFormatPairs, if_neg hpos]

/-- Membership in the flattened pair list. -/
theorem mem_backFormatPairs (devices : List CameraDevice)
    (d : CameraDevice) (f : CameraFormat) :
    (d, f) ∈ backFormatPairs devices ↔
      d ∈ devices ∧ d.position = CameraPosition.back ∧ f ∈ d.formats := by
  induction devices with
  | nil => simp [backFormatPairs]
  | cons dev rest ih =>
    rw [backFormatPairs]
    by_cases hpos : dev.position = CameraPosition.back
    · rw [if_pos hpos]
      simp only [List.mem_append, List.mem_map, List.mem_cons, ih]
      constructor
      · rintro (⟨f0, hf0, heq⟩ | ⟨hd, hp, hf⟩)
        · obtain ⟨h1, h2⟩ := Prod.mk.injEq .. ▸ heq
          exact ⟨Or.inl h1.symm, h1 ▸ hpos, h1 ▸ h2 ▸ hf0⟩
        · exact ⟨Or.inr hd, hp, hf⟩
      · rintro ⟨hd | hd, hp, hf⟩
        · exact Or.inl ⟨f, hd ▸ hf, hd ▸ rfl⟩
        · exact Or.inr ⟨hd, hp, hf⟩
    · rw [if_neg hpos, ih]
      constructor
      · rintro ⟨hd, hp, hf⟩
        exact ⟨List.mem_cons_of_mem dev hd, hp, hf⟩
      · rintro ⟨hd, hp, hf⟩
        rcases List.mem_cons.mp hd with heq | hd2
        · exact absurd (heq ▸ hp) hpos
        · exact ⟨hd2, hp, hf⟩

/-- One scan step never lowers the running pixel count and covers the
pixel count of the format just visited. -/
theorem bestStep_snd (dev : CameraDevice) (s : Option CameraDevice × Nat)
    (fmt : CameraFormat) :
    s.2 ≤ (bestStep dev s fmt).2 ∧ fmtPixels fmt ≤ (bestStep dev s fmt).2 := by
  unfold bestStep
  dsimp only
  split
  · rename_i h
    exact ⟨Nat.le_of_lt h, Nat.le_refl _⟩
  · rename_i h
    push_neg at h
    split
    · rename_i best heq
      split
      · exact ⟨Nat.le_refl _, h⟩
      · exact ⟨Nat.le_refl _, h⟩
    · exact ⟨Nat.le_refl _, h⟩

/-- Case analysis of one scan step: a strictly larger format wins, an equal
format with a strictly better device score wins at the same pixel count,
and otherwise the state is kept — in the keep case the visited format does
not exceed the running count, and if it matches it exactly then the
incumbent device scores at least as well. -/
theorem bestStep_cases (dev : CameraDevice) (s : Option CameraDevice × Nat)
    (fmt : CameraFormat) :
    (bestStep dev s fmt = (some dev, fmtPixels fmt) ∧ s.2 < fmtPixels fmt) ∨
    (bestStep dev s fmt = (some dev, s.2) ∧ fmtPixels fmt = s.2 ∧
      ∃ best, s.1 = some best ∧ scoreDevice best < scoreDevice dev) ∨
    (bestStep dev s fmt = s ∧ fmtPixels fmt ≤ s.2 ∧
      ∀ best, s.1 = some best → fmtPixels fmt = s.2 →
        scoreDevice dev ≤ scoreDevice best) := by
  unfold bestStep
  dsimp only
  split
  · rename_i h
    exact Or.inl ⟨rfl, h⟩
  · rename_i h
    push_neg at h
    split
    · rename_i best heq
      split
      · rename_i hcond
        exact Or.inr (Or.inl ⟨rfl, hcond.1, best, heq, hcond.2⟩)
      · rename_i hcond
        refine Or.inr (Or.inr ⟨rfl, h, ?_⟩)
        intro b hb hpx
        rw [heq] at hb
        cases hb
        by_contra hlt
        exact hcond ⟨hpx, by omega⟩
    · rename_i heq
      refine Or.inr (Or.inr ⟨rfl, h, ?_⟩)
      intro b hb _
      rw [heq] at hb
      cases hb

/-- The running pixel count never decreases along the scan. -/
theorem foldPairs_snd_mono (ps : List (CameraDevice × CameraFormat)) :
    ∀ s, s.2 ≤ (ps.foldl bestPairStep s).2 := by
  induction ps with
  | nil => intro s; exact Nat.le_refl _
  | cons p ps ih =>
    intro s
    rw [List.foldl_cons]
    exact le_trans (bestStep_snd p.1 s p.2).1 (ih (bestPairStep s p))

/-- The final pixel count dominates every scanned format. -/
theorem foldPairs_snd_bound (ps : List (CameraDevice × CameraFormat)) :
    ∀ s p, p ∈ ps → fmtPixels p.2 ≤ (ps.foldl bestPairStep s).2 := by
  induction ps with
  | nil => intro s p hp; simp at hp
  | cons q ps ih =>
    intro s p hp
    rw [List.foldl_cons]
    rcases List.mem_cons.mp hp with h | h
    · subst h
      exact le_trans (bestStep_snd p.1 s p.2).2 (foldPairs_snd_mono ps _)
    · exact ih _ p h


/-- One step preserves the scan invariant when the visited pair belongs to
the universe. -/
theorem bestStep_inv (U : List (CameraDevice × CameraFormat))
    (dev : CameraDevice) (fmt : CameraFormat)
    (s : Option CameraDevice × Nat) (hs : BestInv U s)
    (hmem : (dev, fmt) ∈ U) : BestInv U (bestStep dev s fmt) := by
  rcases bestStep_cases dev s fmt with ⟨hstep, hlt⟩ |
    ⟨hstep, hpx, best, hbest, _⟩ | ⟨hstep, _, _⟩
  · rw [hstep]
    constructor
    · intro h
      cases h
    · intro d hd
      cases hd
      refine ⟨?_, fmt, hmem, rfl⟩
      show 0 < fmtPixels fmt
      omega
  · rw [hstep]
    constructor
    · intro h
      cases h
    · intro d hd
      cases hd
      exact ⟨(hs.2 best hbest).1, fmt, hmem, hpx⟩
  · rw [hstep]
    exact hs

/-- The scan invariant holds after scanning any pair list drawn from the
universe. -/
theorem foldPairs_inv (U : List (CameraDevice × CameraFormat))
    (ps : List (CameraDevice × CameraFormat)) :
    ∀ s, BestInv U s → (∀ p, p ∈ ps → p ∈ U) →
      BestInv U (ps.foldl bestPairStep s) := by
  induction ps with
  | nil => intro s hs _; exact hs
  | cons p ps ih =>
    intro s hs hu
    rw [List.foldl_cons]
    exact ih _ (bestStep_inv U p.1 p.2 s hs (hu p (List.mem_cons_self p ps)))
      (fun q hq => hu q (List.mem_cons_of_mem p hq))

/-- When the pixel count does not change across a scan, the kept device can
only improve its score. -/
theorem foldPairs_score (ps : List (CameraDevice × CameraFormat)) :
    ∀ s d0, s.1 = some d0 →
      (ps.foldl bestPairStep s).2 = s.2 →
      ∃ d1, (ps.foldl bestPairStep s).1 = some d1 ∧
        scoreDevice d0 ≤ scoreDevice d1 := by
  induction ps with
  | nil => intro s d0 h1 _; exact ⟨d0, h1, le_refl _⟩
  | cons p ps ih =>
    intro s d0 h1 h2
    rw [List.foldl_cons] at h2 ⊢
    have hm1 : s.2 ≤ (bestPairStep s p).2 := (bestStep_snd p.1 s p.2).1
    have hm2 : (bestPairStep s p).2 ≤
        (ps.foldl bestPairStep (bestPairStep s p)).2 :=
      foldPairs_snd_mono ps _
    rcases bestStep_cases p.1 s p.2 with ⟨hstep, hlt⟩ |
      ⟨hstep, hpx, best, hbest, hscore⟩ | ⟨hstep, _, _⟩
    · exfalso
      have he : bestPairStep s p = (some p.1, fmtPixels p.2) := hstep
      rw [he] at h2 hm2
      omega
    · have he : bestPairStep s p = (some p.1, s.2) := hstep
      rw [he] at h2 ⊢
      obtain ⟨d1, hd1, hs1⟩ := ih (some p.1, s.2) p.1 rfl h2
      have hbd : best = d0 := by
        rw [h1] at hbest
        exact (Option.some.inj hbest).symm
      exact ⟨d1, hd1, le_trans (le_of_lt (hbd ▸ hscore)) hs1⟩
    · have he : bestPairStep s p = s := hstep
      rw [he] at h2 ⊢
      exact ih s d0 h1 h2

/-- When a scanned pair realizes the positive final pixel count, the device
kept at the end scores at least as well as that pair's device. -/
theorem foldPairs_tie (ps : List (CameraDevice × CameraFormat)) :
    ∀ s, (s.1 = none → s.2 = 0) →
      ∀ (W : CameraDevice) (f : CameraFormat), (W, f) ∈ ps →
        fmtPixels f = (ps.foldl bestPairStep s).2 → 0 < fmtPixels f →
        ∃ d1, (ps.foldl bestPairStep s).1 = some d1 ∧
          scoreDevice W ≤ scoreDevice d1 := by
  induction ps with
  | nil => intro s _ W f hmem; simp at hmem
  | cons p ps ih =>
    intro s hinv W f hmem hpx hpos
    rw [List.foldl_cons] at hpx ⊢
    have hinv1 : (bestPairStep s p).1 = none → (bestPairStep s p).2 = 0 := by
      rcases bestStep_cases p.1 s p.2 with ⟨hstep, _⟩ | ⟨hstep, _, _⟩ |
        ⟨hstep, _, _⟩
      · rw [show bestPairStep s p = (some p.1, fmtPixels p.2) from hstep]
        intro h
        cases h
      · rw [show bestPairStep s p = (some p.1, s.2) from hstep]
        intro h
        cases h
      · rw [show bestPairStep s p = s from hstep]
        exact hinv
    rcases List.mem_cons.mp hmem with heqp | hmem2
    · have hpf : p = (W, f) := heqp.symm
      subst hpf
      have hstep_ge : fmtPixels f ≤ (bestPairStep s (W, f)).2 :=
        (bestStep_snd W s f).2
      have hmono : (bestPairStep s (W, f)).2 ≤
          (ps.foldl bestPairStep (bestPairStep s (W, f))).2 :=
        foldPairs_snd_mono ps _
      have hsnd : (bestPairStep s (W, f)).2 = fmtPixels f := by omega
      rcases bestStep_cases W s f with ⟨hstep, hlt⟩ |
        ⟨hstep, hpxe, best, hbest, hscore⟩ | ⟨hstep, hle, hkeep⟩
      · have he : bestPairStep s (W, f) = (some W, fmtPixels f) := hstep
        rw [he] at hpx ⊢
        exact foldPairs_score ps (some W, fmtPixels f) W rfl hpx.symm
      · have he : bestPairStep s (W, f) = (some W, s.2) := hstep
        rw [he] at hpx ⊢
        obtain ⟨d1, hd1, hs1⟩ :=
          foldPairs_score ps (some W, s.2) W rfl (by omega)
        exact ⟨d1, hd1, hs1⟩
      · have he : bestPairStep s (W, f) = s := hstep
        rw [he] at hpx hsnd ⊢
        cases hd0 : s.1 with
        | none => exact absurd (hsnd ▸ hinv hd0) (by omega)
        | some d0 =>
          have hWd0 : scoreDevice W ≤ scoreDevice d0 := hkeep d0 hd0 hsnd.symm
          obtain ⟨d1, hd1, hs1⟩ := foldPairs_score ps s d0 hd0 (by omega)
          exact ⟨d1, hd1, le_trans hWd0 hs1⟩
    · exact ih (bestPairStep s p) hinv1 W f hmem2 hpx hpos

/-- The device score never exceeds 110. -/
theorem scoreDevice_le (dev : CameraDevice) : scoreDevice dev ≤ 110 := by
  unfold scoreDevice
  split_ifs <;> omega

/-- A dedicated wide-lens device scores exactly 110. -/
theorem score_wide (dev : CameraDevice)
    (h : dev.physicalDevices = [LensKind.wide]) : scoreDevice dev = 110 := by
  unfold scoreDevice
  rw [h]
  decide

/-- Only a dedicated wide-lens device reaches score 110. -/
theorem score_eq_110 (dev : CameraDevice) (h : scoreDevice dev = 110) :
    dev.physicalDevices = [LensKind.wide] := by
  unfold scoreDevice at h
  by_cases h1 : dev.physicalDevices.contains LensKind.wide <;>
  by_cases h2 : dev.physicalDevices.length = 1 <;>
  by_cases h3 : dev.physicalDevices.contains LensKind.ultraWide <;>
  by_cases h4 : dev.physicalDevices.contains LensKind.telephoto <;>
  simp only [h1, h2, h3, h4, if_true, if_false, Bool.false_eq_true,
    Bool.true_eq_false] at h <;>
  try omega
  obtain ⟨k, hk⟩ := List.length_eq_one.mp h2
  rw [hk] at h1
  simp at h1
  rw [hk, h1.symm]

/-- One reduce step of the photo-format pick never lowers the best pixel
count and covers the visited format. -/
theorem maxPhotoStep_snd (o : Option CameraFormat) (f : CameraFormat) :
    optPhotoPixels o ≤ optPhotoPixels (maxPhotoStep o f) ∧
    fmtPixels f ≤ optPhotoPixels (maxPhotoStep o f) := by
  unfold maxPhotoStep
  split
  · rename_i h
    exact ⟨Nat.le_of_lt h, Nat.le_refl _⟩
  · rename_i h
    push_neg at h
    exact ⟨Nat.le_refl _, h⟩

/-- The folded photo-format pick dominates every visited format. -/
theorem foldMaxPhoto_bound (fmts : List CameraFormat) :
    ∀ o, (optPhotoPixels o ≤
        optPhotoPixels (fmts.foldl maxPhotoStep o)) ∧
      ∀ g, g ∈ fmts →
        fmtPixels g ≤ optPhotoPixels (fmts.foldl maxPhotoStep o) := by
  induction fmts with
  | nil =>
    intro o
    exact ⟨Nat.le_refl _, fun g hg => by simp at hg⟩
  | cons f fmts ih =>
    intro o
    rw [List.foldl_cons]
    constructor
    · exact le_trans (maxPhotoStep_snd o f).1 (ih (maxPhotoStep o f)).1
    · intro g hg
      rcases List.mem_cons.mp hg with h | h
      · subst h
        exact le_trans (maxPhotoStep_snd o g).2 (ih (maxPhotoStep o g)).1
      · exact (ih (maxPhotoStep o f)).2 g h

/-- The folded photo-format pick returns the start value or a visited
format. -/
theorem foldMaxPhoto_mem (fmts : List CameraFormat) :
    ∀ o, fmts.foldl maxPhotoStep o = o ∨
      ∃ f, f ∈ fmts ∧ fmts.foldl maxPhotoStep o = some f := by
  induction fmts with
  | nil => intro o; exact Or.inl rfl
  | cons f fmts ih =>
    intro o
    rw [List.foldl_cons]
    have hstep : maxPhotoStep o f = some f ∨ maxPhotoStep o f = o := by
      unfold maxPhotoStep
      split
      · exact Or.inl rfl
      · exact Or.inr rfl
    rcases ih (maxPhotoStep o f) with hrec | ⟨g, hg, hrec⟩
    · rcases hstep with hs | hs
      · exact Or.inr ⟨f, List.mem_cons_self f fmts, hrec.trans hs⟩
      · exact Or.inl (hrec.trans hs)
    · exact Or.inr ⟨g, List.mem_cons_of_mem f hg, hrec⟩

/-- When some format has positive photo pixels, the photo path returns a
format of the list that dominates every format of the list. -/
theorem selectMaxPhotoFormat_spec (fmts : List CameraFormat)
    (hpos : ∃ g, g ∈ fmts ∧ 0 < fmtPixels g) :
    ∃ f, selectMaxPhotoFormat fmts = some f ∧ f ∈ fmts ∧
      ∀ g, g ∈ fmts → fmtPixels g ≤ fmtPixels f := by
  obtain ⟨g, hg, hgpos⟩ := hpos
  have hb := (foldMaxPhoto_bound fmts none).2 g hg
  rcases foldMaxPhoto_mem fmts none with hnone | ⟨f, hf, heq⟩
  · rw [hnone] at hb
    have : fmtPixels g = 0 := Nat.le_zero.mp hb
    omega
  · refine ⟨f, heq, hf, ?_⟩
    intro g2 hg2
    have := (foldMaxPhoto_bound fmts none).2 g2 hg2
    rw [heq] at this
    exact this

/-- C1: when the Max-preset scan selects a device, the photo path picks on
that device a format whose photo pixel count is at least that of every
format of every enumerated back camera; and whenever a dedicated wide-lens
back device also realizes that maximal pixel count, the selected device is
itself a dedicated wide-lens device. -/
theorem bestHighResDevice_max_format (devices : List CameraDevice)
    (d : CameraDevice) (hd : bestHighResDevice devices = some d) :
    ∃ f, selectMaxPhotoFormat d.formats = some f ∧
      (∀ dev, dev ∈ devices → dev.position = CameraPosition.back →
        ∀ g, g ∈ dev.formats → fmtPixels g ≤ fmtPixels f) ∧
      (∀ W, W ∈ devices → W.position = CameraPosition.back →
        W.physicalDevices = [LensKind.wide] →
        (∃ fw, fw ∈ W.formats ∧ fmtPixels fw = fmtPixels f) →
        d.physicalDevices = [LensKind.wide]) := by
  unfold bestHighResDevice at hd
  split at hd
  · cases hd
  rw [foldl_bestDevStep_eq] at hd
  have hinv : BestInv (backFormatPairs devices)
      ((backFormatPairs devices).foldl bestPairStep (none, 0)) :=
    foldPairs_inv _ _ (none, 0)
      ⟨fun _ => rfl, fun d0 h0 => by cases h0⟩ (fun p hp => hp)
  obtain ⟨hpos, fd, hfd_mem, hfd_px⟩ := hinv.2 d hd
  rw [mem_backFormatPairs] at hfd_mem
  obtain ⟨hddev, hdback, hfdfmt⟩ := hfd_mem
  obtain ⟨f, hfeq, hfmem, hfmax⟩ := selectMaxPhotoFormat_spec d.formats
    ⟨fd, hfdfmt, by rw [hfd_px]; exact hpos⟩
  have hfle : fmtPixels f ≤
      ((backFormatPairs devices).foldl bestPairStep (none, 0)).2 :=
    foldPairs_snd_bound _ (none, 0) (d, f)
      ((mem_backFormatPairs devices d f).mpr ⟨hddev, hdback, hfmem⟩)
  have hfge : ((backFormatPairs devices).foldl bestPairStep (none, 0)).2 ≤
      fmtPixels f := by
    rw [← hfd_px]
    exact hfmax fd hfdfmt
  have hfpx : fmtPixels f =
      ((backFormatPairs devices).foldl bestPairStep (none, 0)).2 :=
    le_antisymm hfle hfge
  refine ⟨f, hfeq, ?_, ?_⟩
  · intro dev hdev hback g hg
    have hb : fmtPixels g ≤
        ((backFormatPairs devices).foldl bestPairStep (none, 0)).2 :=
      foldPairs_snd_bound (backFormatPairs devices) (none, 0) (dev, g)
        ((mem_backFormatPairs devices dev g).mpr ⟨hdev, hback, hg⟩)
    omega
  · intro W hW hWback hWwide hfw
    obtain ⟨fw, hfwmem, hfwpx⟩ := hfw
    obtain ⟨d1, hd1, hscore⟩ := foldPairs_tie (backFormatPairs devices)
      (none, 0) (fun _ => rfl) W fw
      ((mem_backFormatPairs devices W fw).mpr ⟨hW, hWback, hfwmem⟩)
      (by rw [hfwpx]; exact hfpx)
      (by rw [hfwpx]; omega)
    have hdd1 : d1 = d := by
      rw [hd] at hd1
      exact (Option.some.inj hd1).symm
    have h110 : scoreDevice d = 110 :=
      le_antisymm (scoreDevice_le d)
        (by rw [← score_wide W hWwide]; exact hdd1 ▸ hscore)
    exact score_eq_110 d h110






/-- Witness: on the demo list the scan picks the dedicated wide device over
the tied multi-lens device, and the photo path then returns a format. -/
theorem bestHighResDevice_max_format_witness :
    bestHighResDevice demoDevices = some demoWideDev ∧
    (selectMaxPhotoFormat demoWideDev.formats).isSome = true := by
  have hd : bestHighResDevice demoDevices = some demoWideDev := by rfl
  refine ⟨hd, ?_⟩
  obtain ⟨f, hf, -, -⟩ :=
    bestHighResDevice_max_format demoDevices demoWideDev hd
  rw [hf]
  rfl
